import Mathlib

/-!
Verification of the leadership-content-harvester ingestion pipeline.

This file gives a shallow embedding, in Lean 4, of the core of the
repository `leadership-coach` (directory `leadership-content-harvester`):
the transcript cleaning utilities (`src/utils/cleaning.py`), the
transcript resolver and chunker (`src/services/transcript_service.py`),
the embedding batch service (`src/services/embedding_service.py`),
the Milvus vector sink (`src/services/milvus_service.py`), the Excel
tabular sink (`src/services/excel_service.py`) and the per-video
orchestration (`main.py`), and proves or refutes the frozen claims
about them.

Strings are modelled as `List Char` (Python `str` is a sequence of code
points, and all the operations involved act on code points).  External
collaborators (the YouTube captioning API, Whisper, the sentence
transformer, the Milvus client, pandas/openpyxl) are modelled as
oracle inputs, exactly at the boundaries where the Python code calls
them.
-/

namespace Harvester

/-! ## Cleaning utilities — `src/utils/cleaning.py` -/

/-- Whitespace as Python's `str` semantics see it: the set of code
points matched by `\s` in a `str` regular expression and stripped by
`str.strip()` (ASCII whitespace, the C1 file separators, NEL, NBSP and
the Unicode space separators). -/
def isPySpace (c : Char) : Bool :=
  c.toNat ∈ [0x09, 0x0A, 0x0B, 0x0C, 0x0D, 0x1C, 0x1D, 0x1E, 0x1F, 0x20,
              0x85, 0xA0, 0x1680, 0x2000, 0x2001, 0x2002, 0x2003, 0x2004,
              0x2005, 0x2006, 0x2007, 0x2008, 0x2009, 0x200A, 0x2028,
              0x2029, 0x202F, 0x205F, 0x3000]

/-- Characters removed by `cleaning.py` line 62:
`re.sub(r'[\x00-\x1F\x7F-\x9F]', '', text)`. -/
def isRemovedCtrl (c : Char) : Bool :=
  c.toNat ≤ 0x1F || (0x7F ≤ c.toNat && c.toNat ≤ 0x9F)

/-- ASCII control characters (code points 0x00–0x1F and 0x7F). -/
def isAsciiCtrl (c : Char) : Bool :=
  c.toNat ≤ 0x1F || c.toNat = 0x7F

/-- Recursion core of the whitespace collapse, structurally recursive
on a fuel argument so that concrete instances reduce; every step
consumes at least one character and one unit of fuel, so fuel equal to
the length never runs out. -/
def collapseWSFuel : Nat → List Char → List Char
  | 0, l => l
  | _, [] => []
  | fuel + 1, c :: cs =>
    if isPySpace c then ' ' :: collapseWSFuel fuel (cs.dropWhile isPySpace)
    else c :: collapseWSFuel fuel cs

/-- Embedding of `re.sub(r'\s+', ' ', text)` (`cleaning.py` line 59):
every maximal run of whitespace characters is replaced by one
space. -/
def collapseWS (l : List Char) : List Char :=
  collapseWSFuel l.length l

/-- Embedding of `re.sub(r'[\x00-\x1F\x7F-\x9F]', '', text)`
(`cleaning.py` line 62). -/
def removeCtrl (l : List Char) : List Char :=
  l.filter (fun c => !isRemovedCtrl c)

/-- Embedding of Python `str.strip()`: drop whitespace from both ends. -/
def pyStrip (l : List Char) : List Char :=
  ((l.dropWhile isPySpace).reverse.dropWhile isPySpace).reverse

/-- Recursion core of the literal replacement, structurally recursive
on a fuel argument so that concrete instances reduce; every step
consumes at least one character and one unit of fuel, so fuel equal to
the length never runs out. -/
def replaceAllFuel (pat rep : List Char) : Nat → List Char → List Char
  | 0, l => l
  | _, [] => []
  | fuel + 1, c :: cs =>
    if pat.isEmpty = false && pat.isPrefixOf (c :: cs) then
      rep ++ replaceAllFuel pat rep fuel ((c :: cs).drop pat.length)
    else c :: replaceAllFuel pat rep fuel cs

/-- Embedding of Python `str.replace(pat, rep)` for a non-empty
literal pattern: left-to-right, non-overlapping, the replacement text
is not rescanned. -/
def replaceAll (pat rep : List Char) (l : List Char) : List Char :=
  replaceAllFuel pat rep l.length l

/-- Replacement table of `normalize_turkish_text` (`cleaning.py`
lines 24–37), in source order: each escaped sequence is the
six-character literal backslash-u-h-h-h-h. -/
def turkishReplacements : List (List Char × Char) :=
  [ (['\\', 'u', '0', '1', '3', '1'], 'ı'),
    (['\\', 'u', '0', '1', '3', '0'], 'İ'),
    (['\\', 'u', '0', '1', '5', 'f'], 'ş'),
    (['\\', 'u', '0', '1', '5', 'e'], 'Ş'),
    (['\\', 'u', '0', '1', '1', 'f'], 'ğ'),
    (['\\', 'u', '0', '1', '1', 'e'], 'Ğ'),
    (['\\', 'u', '0', '0', 'e', '7'], 'ç'),
    (['\\', 'u', '0', '0', 'c', '7'], 'Ç'),
    (['\\', 'u', '0', '0', 'f', '6'], 'ö'),
    (['\\', 'u', '0', '0', 'd', '6'], 'Ö'),
    (['\\', 'u', '0', '0', 'f', 'c'], 'ü'),
    (['\\', 'u', '0', '0', 'd', 'c'], 'Ü') ]

/-- Whether the two-character sequence backslash-u occurs in the text
(the `'\\u' in text` test of `cleaning.py` line 16). -/
def hasBackslashU : List Char → Bool
  | '\\' :: 'u' :: _ => true
  | _ :: cs => hasBackslashU cs
  | [] => false

/-- Embedding of `normalize_turkish_text` (`cleaning.py` lines 4–42).
The Python `text.encode().decode('unicode_escape')` call is a stdlib
codec, an external collaborator; it is passed in as the parameter
`decode` (its failure branch, which keeps the text unchanged, is the
instantiation `decode = id`).  It is applied exactly when the text
contains a backslash-u sequence, then the twelve Turkish replacements
run in source order. -/
def normalizeTurkishText (decode : List Char → List Char) (t : List Char) :
    List Char :=
  let t := if hasBackslashU t then decode t else t
  turkishReplacements.foldl (fun s p => replaceAll p.1 [p.2] s) t

/-- Embedding of `clean_transcript_text` (`cleaning.py` lines 44–64):
normalize, collapse whitespace runs to a single space, remove the
control range, then strip — in exactly that order. -/
def cleanTranscriptText (decode : List Char → List Char) (t : List Char) :
    List Char :=
  pyStrip (removeCtrl (collapseWS (normalizeTurkishText decode t)))

/-! ## Transcript resolver — `src/services/transcript_service.py` -/

/-- Caption fragment as stored in the transcript cache files and
returned by the captioning API: a dict `{text, start, duration}`.
Start and duration are never computed with; their numeric values are
carried as rationals. -/
structure Fragment where
  text : List Char
  start : ℚ
  duration : ℚ
deriving DecidableEq, Repr

/-- Outcome of `YouTubeTranscriptApi.get_transcript(video_id)`
(`transcript_service.py` line 69): data, or one of the two
distinguished exceptions, or any other exception. -/
inductive StdFetch
  | ok (data : List Fragment)
  | disabled
  | notFound
  | err
deriving DecidableEq, Repr

/-- Outcome of the audio path of `_extract_and_transcribe_audio` and
`_transcribe_with_whisper` (lines 164–252): the download failed, the
file was missing or empty, whisper raised or was not installed — all
collapse to a `none`-producing branch — or whisper returned a `text`
value (possibly empty). -/
inductive AudioOutcome
  | noAudio
  | whisperFail
  | whisperText (t : List Char)
deriving DecidableEq, Repr

/-- Oracle environment of one `get_transcript(video_id)` call: the
cache file contents if the file exists, and the results of each
external call the resolver can make.  `tracks` is the outcome of
`list_transcripts` (`none` if it raised) together with, per caption
track, the outcome of `transcript.translate(…).fetch()` (`none` if
that attempt raised). -/
structure ResolverEnv where
  cache : Option (List Fragment)
  standard : StdFetch
  tracks : Option (List (Option (List Fragment)))
  auto : Option (List Fragment)
  audio : AudioOutcome
deriving Repr

/-- Resolution strategies, in the order the resolver can attempt
them. -/
inductive Strategy
  | cached
  | standard
  | translated
  | auto
  | audio
deriving DecidableEq, Repr

/-- Observable outcome of one `get_transcript` call: the returned
value, which strategy's `return` produced it (if any), the strategies
attempted in order, and the sequence of cache-file writes (each write
is a full fragment-list payload). -/
structure ResolveOutcome where
  result : Option (List Char)
  method : Option Strategy
  trace : List Strategy
  writes : List (List Fragment)
deriving DecidableEq, Repr

/-- Loop body of `_format_transcript` (lines 259–266): strip the
fragment text, clean it, and append it with a trailing space when
non-empty. -/
def formatStep (decode : List Char → List Char) (acc : List Char)
    (f : Fragment) : List Char :=
  let t := cleanTranscriptText decode (pyStrip f.text)
  if t ≠ [] then acc ++ t ++ [' '] else acc

/-- Embedding of `_format_transcript` (lines 255–268): per fragment,
strip, clean, and append with a trailing space when non-empty; strip
the concatenation. -/
def formatTranscript (decode : List Char → List Char)
    (data : List Fragment) : List Char :=
  pyStrip (data.foldl (formatStep decode) [])

/-- Python truthiness of an `Optional[str]`: not `None` and not the
empty string. -/
def truthy : Option (List Char) → Bool
  | some (_ :: _) => true
  | _ => false

/-- Embedding of `_try_translated_transcripts` (lines 114–146): walk
the caption tracks, return the formatted text of the first successful
translate-and-fetch (caching its raw payload first); `none` when
`list_transcripts` raised or every track failed.  The second component
is the list of cache writes performed. -/
def tryTranslated (decode : List Char → List Char)
    (tracks : Option (List (Option (List Fragment)))) :
    Option (List Char) × List (List Fragment) :=
  match tracks with
  | none => (none, [])
  | some ts => go ts
where
  go : List (Option (List Fragment)) → Option (List Char) × List (List Fragment)
    | [] => (none, [])
    | none :: rest => go rest
    | some d :: _ => (some (formatTranscript decode d), [d])

/-- Embedding of `_try_auto_transcript` (lines 148–162): on success
cache the raw payload and return the formatted text; `none` on any
exception. -/
def tryAuto (decode : List Char → List Char) (auto : Option (List Fragment)) :
    Option (List Char) × List (List Fragment) :=
  match auto with
  | none => (none, [])
  | some d => (some (formatTranscript decode d), [d])

/-- Embedding of `_extract_and_transcribe_audio` plus
`_transcribe_with_whisper` (lines 164–252): on a non-empty whisper
`text`, clean it, cache a single fragment `{text, 0.0, 0.0}` holding
the cleaned text, and return the cleaned text stripped; `none` in
every failure branch. -/
def audioStep (decode : List Char → List Char) (a : AudioOutcome) :
    Option (List Char) × List (List Fragment) :=
  match a with
  | .noAudio => (none, [])
  | .whisperFail => (none, [])
  | .whisperText t =>
    if t = [] then (none, [])
    else
      let t' := cleanTranscriptText decode t
      (some (pyStrip t'), [[⟨t', 0, 0⟩]])

/-- Embedding of `get_transcript` (lines 57–112): cache hit first,
then the standard-caption call whose three failure modes route to the
translated, auto and audio fallbacks exactly as in the source. -/
def resolve (decode : List Char → List Char) (env : ResolverEnv) :
    ResolveOutcome :=
  match env.cache with
  | some d => ⟨some (formatTranscript decode d), some .cached, [.cached], []⟩
  | none =>
    match env.standard with
    | .ok d =>
      ⟨some (formatTranscript decode d), some .standard,
        [.cached, .standard], [d]⟩
    | .disabled =>
      let tr := tryTranslated decode env.tracks
      if truthy tr.1 then
        ⟨tr.1, some .translated, [.cached, .standard, .translated], tr.2⟩
      else
        let au := tryAuto decode env.auto
        if truthy au.1 then
          ⟨au.1, some .auto, [.cached, .standard, .translated, .auto],
            tr.2 ++ au.2⟩
        else
          let w := audioStep decode env.audio
          ⟨w.1, if w.1.isSome then some .audio else none,
            [.cached, .standard, .translated, .auto, .audio],
            tr.2 ++ au.2 ++ w.2⟩
    | .notFound =>
      let au := tryAuto decode env.auto
      if truthy au.1 then
        ⟨au.1, some .auto, [.cached, .standard, .auto], au.2⟩
      else
        let w := audioStep decode env.audio
        ⟨w.1, if w.1.isSome then some .audio else none,
          [.cached, .standard, .auto, .audio], au.2 ++ w.2⟩
    | .err =>
      let w := audioStep decode env.audio
      ⟨w.1, if w.1.isSome then some .audio else none,
        [.cached, .standard, .audio], w.2⟩

/-! ## Chunker — `get_chunked_transcript` (lines 270–285) -/

/-- Sliding windows of `text[i : i+size]` for `i` ranging over
`range(0, len(text), step)` with a positive `step`: the window at the
current offset, then recurse on the text with `step` characters
dropped. -/
def slidingChunks (size step : Nat) (xs : List α) : List (List α) :=
  if h : xs.isEmpty || step == 0 then []
  else xs.take size :: slidingChunks size step (xs.drop step)
termination_by xs.length
decreasing_by
  simp only [Bool.or_eq_true, List.isEmpty_iff, beq_iff_eq, not_or] at h
  simp only [List.length_drop]
  have h1 : 0 < xs.length := List.length_pos.mpr h.1
  have h2 : 0 < step := Nat.pos_of_ne_zero h.2
  omega

/-- Embedding of `get_chunked_transcript` after the transcript has
been fetched: `full` is the `get_transcript` result.  A falsy
transcript (None or empty) returns `[]` before any loop; otherwise
`range(0, len, chunk_size - overlap)` is taken over the Python `int`
step — a zero step raises `ValueError` (modelled as `Except.error`), a
negative step yields an empty range, and a positive step yields the
sliding windows, each appended only if non-empty. -/
def chunkTranscript (full : Option (List Char)) (chunkSize overlap : Nat) :
    Except Unit (List (List Char)) :=
  match full with
  | none => .ok []
  | some t =>
    if t = [] then .ok []
    else
      let step : Int := (chunkSize : Int) - (overlap : Int)
      if step = 0 then .error ()
      else if step < 0 then .ok []
      else .ok ((slidingChunks chunkSize step.toNat t).filter (· ≠ []))

/-- Reassembly of sliding windows at their non-overlapping boundaries:
the first `step` characters of every window except the last, then the
last window whole. -/
def recombine (step : Nat) : List (List α) → List α
  | [] => []
  | [c] => c
  | c :: c' :: cs => c.take step ++ recombine step (c' :: cs)

/-! ## Embedding batch service — `src/services/embedding_service.py` -/

/-- Embedding of `generate_embeddings` (lines 58–96) on the success
path: empty input returns `[]` immediately; otherwise the texts are
processed in batches `texts[i : i+batch_size]` for
`i in range(0, len(texts), batch_size)` and the per-batch results of
`model.encode` are concatenated in order.  The model call is the
external collaborator: per the spec it is a pure function per text,
passed in as `f` applied elementwise to a batch. -/
def generateEmbeddings (f : String → V) (batchSize : Nat)
    (texts : List String) : List V :=
  if texts.isEmpty then []
  else ((slidingChunks batchSize batchSize texts).map (fun b => b.map f)).flatten

/-! ## Milvus vector sink — `src/services/milvus_service.py` -/

/-- Record stored in the `video_transcripts` collection, one per
chunk, with the field set of `MilvusService._fields` (lines 49–57).
The vector payload type is a parameter: its values are opaque to every
operation modelled. -/
structure MilvusRecord (V : Type) where
  id : String
  video_id : String
  video_title : String
  video_url : String
  chunk_index : Nat
  transcript_chunk : String
  transcript_vector : V
deriving DecidableEq, Repr

/-- Collection state: the list of inserted records, in insertion
order. -/
abbrev MilvusState (V : Type) := List (MilvusRecord V)

/-- Whether some stored record carries this `video_id` — the fact a
successful limit-1 query reports via `len(results) > 0`. -/
def storeHas (st : MilvusState V) (vid : String) : Bool :=
  st.any (fun r => r.video_id == vid)

/-- Embedding of `video_exists` (lines 137–157): a limit-1 query
filtered by `video_id`, reporting whether a matching record exists —
but the `except` branch logs and returns `False` whenever the client
query raises, even when matching records are present.  `qOk` is the
outcome of this call's client query. -/
def videoExists (qOk : Bool) (st : MilvusState V) (vid : String) : Bool :=
  if qOk then storeHas st vid else false

/-- Video metadata dict as consumed by `process_video` and
`insert_transcript_chunks`: `video_data.get('id')` may be absent. -/
structure VideoData where
  id : Option String
  title : String
  url : String
deriving DecidableEq, Repr

/-- Python `str(x)` for `Optional[str]` under f-string interpolation:
`None` prints as the four-character string `None`. -/
def idString (v : VideoData) : String :=
  v.id.getD "None"

/-- Python falsiness of `video_data.get("id")` as tested by
`if not video_id:` (`main.py` line 37): both a missing id and an empty
string are falsy. -/
def pyStrFalsy : Option String → Bool
  | none => true
  | some s => s == ""

/-- Records built by the loop of `insert_transcript_chunks`
(lines 183–198): `enumerate(zip(chunks, embeddings))` starting at
index `i`, each with id `f"{video_id}_{i}"`. -/
def buildRecords (v : VideoData) : Nat → List (String × V') → List (MilvusRecord V')
  | _, [] => []
  | i, (c, e) :: rest =>
    ⟨idString v ++ "_" ++ toString i, idString v, v.title, v.url, i, c, e⟩ ::
      buildRecords v (i + 1) rest

/-- Embedding of `insert_transcript_chunks` (lines 159–212).  A length
mismatch raises before anything is built; an empty record list skips
the client call; otherwise one atomic `client.insert` call is made,
whose success is the oracle `clientOk` — on failure the exception is
logged and re-raised with the store untouched.  The first component is
the normal/raised outcome, the second the store after the call. -/
def insertTranscriptChunks (v : VideoData) (chunks : List String)
    (embeddings : List V') (clientOk : Bool) (st : MilvusState V') :
    Except Unit Unit × MilvusState V' :=
  if chunks.length ≠ embeddings.length then (.error (), st)
  else
    let records := buildRecords v 0 (chunks.zip embeddings)
    if records.isEmpty then (.ok (), st)
    else if clientOk then (.ok (), st ++ records)
    else (.error (), st)

/-! ## Ingestion orchestrator — `main.py` -/

/-- Storage modes of `config.StorageType`. -/
inductive StorageType
  | excel
  | vectorDB
  | both
deriving DecidableEq, Repr

/-- Externally observable calls `process_video` makes, in order. -/
inductive Event
  | existsCheck (vid : String)
  | resolveCall (vid : String)
  | excelAppend (vid : String)
  | embedCall (vid : String)
  | insertCall (vid : String)
deriving DecidableEq, Repr

/-- Fixed context of one harvester run: configuration, which services
were constructed, and the oracles for every external call.
`chunksOf` is the per-video result of `get_chunked_transcript`
(`.error` when it raised); it is a function of the video id alone,
reflecting that transcripts are resolved from (and cached to) the
per-video cache files.  `excelOk`, `embedOk` and `clientOk` model the
success of the Excel append, the embedding model call and the Milvus
insert call. -/
structure HarvestEnv (V : Type) where
  storageType : StorageType
  hasMilvus : Bool
  hasEmbedding : Bool
  hasExcel : Bool
  chunksOf : String → Except Unit (List String)
  embed : String → V
  excelOk : Bool
  embedOk : Bool
  clientOk : Bool

/-- Guard of the existence-check block (`main.py` line 42):
`config.storage_type in [StorageType.VECTOR_DB, StorageType.BOTH] and
milvus_service`. -/
def vectorCheckActive (env : HarvestEnv V) : Bool :=
  (env.storageType == .vectorDB || env.storageType == .both) && env.hasMilvus

/-- Guard of the Excel block (`main.py` line 73). -/
def excelActive (env : HarvestEnv V) : Bool :=
  (env.storageType == .excel || env.storageType == .both) && env.hasExcel

/-- Guard of the Milvus block (`main.py` line 78): vector storage with
both the Milvus and the embedding service constructed. -/
def vectorInsertActive (env : HarvestEnv V) : Bool :=
  (env.storageType == .vectorDB || env.storageType == .both)
    && env.hasMilvus && env.hasEmbedding

/-- Embedding of `process_video` (`main.py` lines 26–90): falsy id
(missing or empty string), existence-check skip, transcript chunking
(any raised exception is caught and returns `False`), Excel append,
then embedding plus Milvus insert.  `qOk` is the outcome of this
call's existence query (`video_exists` swallows a raised query and
reports `False`).  Returns the boolean result, the vector-store state
after the call, and the trace of external calls made. -/
def processVideo (env : HarvestEnv V) (qOk : Bool) (v : VideoData)
    (st : MilvusState V) : Bool × MilvusState V × List Event :=
  if pyStrFalsy v.id then (false, st, [])
  else
    let vid := v.id.getD ""
    if vectorCheckActive env && videoExists qOk st vid then
      (false, st, [.existsCheck vid])
    else
      let ev0 : List Event :=
        if vectorCheckActive env then [.existsCheck vid] else []
      match env.chunksOf vid with
      | .error _ => (false, st, ev0 ++ [.resolveCall vid])
      | .ok chunks =>
        if chunks.isEmpty then (false, st, ev0 ++ [.resolveCall vid])
        else if excelActive env && !env.excelOk then
          (false, st, ev0 ++ [.resolveCall vid, .excelAppend vid])
        else
          let ev1 := ev0 ++ [.resolveCall vid] ++
            (if excelActive env then [.excelAppend vid] else [])
          if vectorInsertActive env then
            let embeddings := if env.embedOk then chunks.map env.embed else []
            if embeddings.isEmpty then
              (true, st, ev1 ++ [.embedCall vid])
            else
              match insertTranscriptChunks ⟨some vid, v.title, v.url⟩
                  chunks embeddings env.clientOk st with
              | (.ok _, st') =>
                (true, st', ev1 ++ [.embedCall vid, .insertCall vid])
              | (.error _, _) =>
                (false, st, ev1 ++ [.embedCall vid, .insertCall vid])
          else (true, st, ev1)

/-- One run of the orchestrator loop (`main.py` lines 202–215) over
the video list, threading the vector-store state.  Each job pairs a
video with the outcome of the existence query its `process_video`
call will make. -/
def runHarvest (env : HarvestEnv V) (jobs : List (Bool × VideoData))
    (st : MilvusState V) : MilvusState V :=
  jobs.foldl (fun s j => (processVideo env j.1 j.2 s).2.1) st

/-- Chunk list the orchestrator obtains for a video id (empty on a
raised or empty resolution). -/
def pvChunks (env : HarvestEnv V) (vid : String) : List String :=
  match env.chunksOf vid with
  | .error _ => []
  | .ok c => c

/-- Whether `process_video`, reaching past the existence check for a
video with this id, ends up inserting records into the vector store:
the chunking succeeded non-emptily, the Excel append (if active) did
not raise, the Milvus insert block is active, the embedding call
succeeded, and the client insert succeeded. -/
def pvInserts (env : HarvestEnv V) (vid : String) : Bool :=
  (match env.chunksOf vid with
   | .error _ => false
   | .ok chunks => !chunks.isEmpty)
  && !(excelActive env && !env.excelOk)
  && vectorInsertActive env && env.embedOk && env.clientOk

/-- Records inserted for a video when `pvInserts` holds; they depend
only on the environment and the video, not on the store. -/
def pvRecords (env : HarvestEnv V) (v : VideoData) (vid : String) : MilvusState V :=
  buildRecords ⟨some vid, v.title, v.url⟩ 0
    ((pvChunks env vid).zip ((pvChunks env vid).map env.embed))

/-- Concrete one-video environment exercising the orchestrator: both
sinks active, all services constructed, a two-chunk transcript for
every source, every external call succeeding. -/
def requeryEnv : HarvestEnv Nat :=
  ⟨.both, true, true, true, fun _ => .ok ["c1", "c2"],
   String.length, true, true, true⟩

/-- Concrete video processed by `requeryEnv`. -/
def requeryVideo : VideoData := ⟨some "v1", "t", "u"⟩

/-! ## Excel tabular sink — `src/services/excel_service.py` -/

/-- Row of the `Transcripts` sheet, as built by `process_video`
(`main.py` lines 63–70). -/
structure ChunkRow where
  video_id : String
  video_title : String
  video_url : String
  chunk_index : Nat
  transcript_chunk : String
deriving DecidableEq, Repr

/-- Video metadata row of the `Videos` sheet. -/
structure VideoRow where
  id : String
  title : String
  url : String
deriving DecidableEq, Repr

/-- Contents of the Excel workbook: the two sheets, each present or
absent.  (`save_transcripts` always creates the `Videos` sheet, even
from an empty list; the `Transcripts` sheet exists only when rows were
written.) -/
structure ExcelFile where
  videosSheet : Option (List VideoRow)
  transcriptsSheet : Option (List ChunkRow)
deriving DecidableEq, Repr

/-- Embedding of `save_transcripts` (lines 41–69): create the workbook
from scratch with a `Videos` sheet from the given metadata, and a
`Transcripts` sheet only when the transcript list is non-empty. -/
def saveTranscripts (videos : List VideoRow) (transcripts : List ChunkRow) :
    ExcelFile :=
  ⟨some videos, if transcripts.isEmpty then none else some transcripts⟩

/-- Duplicate detection of `append_transcripts` (lines 97–103): the
`video_id` values appearing in both the new and the existing rows
(deduplicated, in first-occurrence order of the new rows). -/
def duplicateVideoIds (newRows existing : List ChunkRow) : List String :=
  ((newRows.map (·.video_id)).inter (existing.map (·.video_id))).dedup

/-- Embedding of `append_transcripts` (lines 71–121).  Empty input
returns with the file untouched; a missing file is created via
`save_transcripts([], rows)`; an existing `Transcripts` sheet is read
fully, the new rows are concatenated after it and the sheet is
rewritten in replace mode (other sheets kept); a file without that
sheet gets it created from the new rows.  The second component is the
list of duplicate `video_id` values warned about (logged, never
blocking). -/
def appendTranscripts (rows : List ChunkRow) (file : Option ExcelFile) :
    Option ExcelFile × List String :=
  if rows.isEmpty then (file, [])
  else
    match file with
    | none => (some (saveTranscripts [] rows), [])
    | some f =>
      match f.transcriptsSheet with
      | some existing =>
        (some { f with transcriptsSheet := some (existing ++ rows) },
          duplicateVideoIds rows existing)
      | none => (some { f with transcriptsSheet := some rows }, [])

/-! ## Chunker lemmas -/

theorem slidingChunks_nil (size step : Nat) : slidingChunks size step ([] : List α) = [] := by
  rw [slidingChunks]; simp

theorem slidingChunks_cons (size step : Nat) (xs : List α) (h1 : xs ≠ []) (h2 : step ≠ 0) :
    slidingChunks size step xs = xs.take size :: slidingChunks size step (xs.drop step) := by
  rw [slidingChunks]
  simp [h1, h2]

theorem slidingChunks_ne_nil (size step : Nat) (hsize : size ≠ 0) (h2 : step ≠ 0)
    (xs : List α) : ∀ cl ∈ slidingChunks size step xs, cl ≠ [] := by
  induction xs using slidingChunks.induct size step with
  | case1 x hx =>
    simp only [Bool.or_eq_true, List.isEmpty_iff, beq_iff_eq, h2, or_false] at hx
    subst hx
    simp [slidingChunks_nil]
  | case2 x hx ih =>
    simp only [Bool.or_eq_true, List.isEmpty_iff, beq_iff_eq, h2, or_false] at hx
    rw [slidingChunks_cons _ _ _ hx h2]
    intro cl hcl
    rcases List.mem_cons.mp hcl with h | h
    · subst h
      simp only [ne_eq, List.take_eq_nil_iff, not_or]
      exact ⟨hsize, hx⟩
    · exact ih cl h

theorem slidingChunks_getElem (size step : Nat) (h2 : step ≠ 0) (xs : List α) (k : Nat) :
    (slidingChunks size step xs)[k]? =
      if k * step < xs.length then some ((xs.drop (k * step)).take size) else none := by
  induction xs using slidingChunks.induct size step generalizing k with
  | case1 x hx =>
    simp only [Bool.or_eq_true, List.isEmpty_iff, beq_iff_eq, h2, or_false] at hx
    subst hx
    simp [slidingChunks_nil]
  | case2 x hx ih =>
    simp only [Bool.or_eq_true, List.isEmpty_iff, beq_iff_eq, h2, or_false] at hx
    rw [slidingChunks_cons _ _ _ hx h2]
    cases k with
    | zero =>
      have : 0 < x.length := List.length_pos.mpr hx
      simp [this]
    | succ k =>
      simp only [List.getElem?_cons_succ, ih, List.length_drop, List.drop_drop,
        Nat.succ_mul]
      have hstep : 0 < step := Nat.pos_of_ne_zero h2
      by_cases hlt : k * step < x.length - step
      · rw [if_pos hlt, if_pos (by omega)]
        rw [Nat.add_comm (k * step) step]
      · rw [if_neg hlt, if_neg (by omega)]

theorem slidingChunks_recombine (size step : Nat) (h2 : step ≠ 0) (hss : step ≤ size)
    (xs : List α) : recombine step (slidingChunks size step xs) = xs := by
  induction xs using slidingChunks.induct size step with
  | case1 x hx =>
    simp only [Bool.or_eq_true, List.isEmpty_iff, beq_iff_eq, h2, or_false] at hx
    subst hx
    simp [slidingChunks_nil, recombine]
  | case2 x hx ih =>
    rw [slidingChunks_cons _ _ _ (by simpa [h2] using hx) h2]
    by_cases hd : x.drop step = []
    · rw [hd, slidingChunks_nil]
      simp only [recombine]
      have : x.length ≤ step := by
        have := List.drop_eq_nil_iff.mp hd
        omega
      exact List.take_of_length_le (le_trans this hss)
    · rw [slidingChunks_cons _ _ _ hd h2] at ih ⊢
      simp only [recombine] at ih ⊢
      rw [ih, List.take_take, Nat.min_eq_left hss, List.take_append_drop]

theorem slidingChunks_flatten (b : Nat) (h2 : b ≠ 0) (xs : List α) :
    (slidingChunks b b xs).flatten = xs := by
  induction xs using slidingChunks.induct b b with
  | case1 x hx =>
    simp only [Bool.or_eq_true, List.isEmpty_iff, beq_iff_eq, h2, or_false] at hx
    subst hx
    simp [slidingChunks_nil]
  | case2 x hx ih =>
    rw [slidingChunks_cons _ _ _ (by simpa [h2] using hx) h2]
    simp only [List.flatten_cons, ih, List.take_append_drop]

theorem slidingChunks_map (size step : Nat) (h2 : step ≠ 0) (f : α → β) (xs : List α) :
    slidingChunks size step (xs.map f) = (slidingChunks size step xs).map (List.map f) := by
  induction xs using slidingChunks.induct size step with
  | case1 x hx =>
    simp only [Bool.or_eq_true, List.isEmpty_iff, beq_iff_eq, h2, or_false] at hx
    subst hx
    simp [slidingChunks_nil]
  | case2 x hx ih =>
    have hx' : x ≠ [] := by simpa [h2] using hx
    rw [slidingChunks_cons _ _ _ hx' h2,
      slidingChunks_cons _ _ _ (by simpa using hx') h2]
    rw [← List.map_drop, ih]
    simp [List.map_take]


/-! ## Claim C4 — chunker correctness -/

/-- Claim C4: for `0 ≤ overlap < chunk_size`, `get_chunked_transcript`
produces exactly the windows `text[i : i+chunk_size]` at offsets
stepping by `chunk_size - overlap` (the k-th chunk is the window at
offset `k * (chunk_size - overlap)`, so chunk indices are contiguous
from 0), empty windows are dropped (vacuously — none arises),
concatenating the windows at their non-overlapping boundaries
reproduces the input, and a 2500-character transcript with
`chunk_size = 1000`, `overlap = 100` yields exactly the three chunks
at offsets 0, 900, 1800, the last of length 700. -/
theorem chunker_windows_reconstruction (xs : List Char) (chunkSize overlap : Nat)
    (h : overlap < chunkSize) :
    chunkTranscript (some xs) chunkSize overlap
        = .ok (slidingChunks chunkSize (chunkSize - overlap) xs)
    ∧ (∀ k, (slidingChunks chunkSize (chunkSize - overlap) xs)[k]? =
        if k * (chunkSize - overlap) < xs.length then
          some ((xs.drop (k * (chunkSize - overlap))).take chunkSize)
        else none)
    ∧ recombine (chunkSize - overlap)
        (slidingChunks chunkSize (chunkSize - overlap) xs) = xs
    ∧ (xs.length = 2500 →
        slidingChunks 1000 900 xs
          = [xs.take 1000, (xs.drop 900).take 1000, xs.drop 1800]
        ∧ (xs.drop 1800).length = 700) := by
  have hstep : chunkSize - overlap ≠ 0 := by omega
  refine ⟨?_, ?_, ?_, ?_⟩
  · by_cases hx : xs = []
    · subst hx
      simp [chunkTranscript, slidingChunks_nil]
    · have hz : ¬((chunkSize : Int) - overlap = 0) := by omega
      have hneg : ¬((chunkSize : Int) - overlap < 0) := by omega
      have htn : ((chunkSize : Int) - overlap).toNat = chunkSize - overlap := by omega
      simp only [chunkTranscript, hx, if_false, hz, hneg, htn]
      rw [List.filter_eq_self.mpr]
      intro a ha
      simpa using slidingChunks_ne_nil chunkSize (chunkSize - overlap)
        (by omega) hstep xs a ha
  · exact fun k => slidingChunks_getElem _ _ hstep xs k
  · exact slidingChunks_recombine _ _ hstep (by omega) xs
  · intro hlen
    have h1 : xs ≠ [] := by
      intro hnil; rw [hnil] at hlen; simp at hlen
    have h2 : xs.drop 900 ≠ [] := by
      intro hnil
      have := congrArg List.length hnil
      simp [hlen] at this
    have h3 : (xs.drop 900).drop 900 ≠ [] := by
      intro hnil
      have := congrArg List.length hnil
      simp [hlen] at this
    rw [slidingChunks_cons _ _ _ h1 (by omega),
      slidingChunks_cons _ _ _ h2 (by omega),
      slidingChunks_cons _ _ _ h3 (by omega)]
    have h4 : ((xs.drop 900).drop 900).drop 900 = [] := by
      rw [List.drop_eq_nil_iff]
      simp [hlen]
    rw [h4, slidingChunks_nil]
    have h5 : (xs.drop 900).drop 900 = xs.drop 1800 := by
      rw [List.drop_drop]
    have h6 : (xs.drop 1800).length = 700 := by simp [hlen]
    refine ⟨?_, h6⟩
    rw [h5]
    have h7 : (xs.drop 1800).take 1000 = xs.drop 1800 :=
      List.take_of_length_le (by omega)
    rw [h7]

/-- Witness for C4 at the claim's own concrete scenario: a
2500-character text with `chunk_size = 1000`, `overlap = 100`. -/
theorem chunker_windows_reconstruction_witness :
    (100 < 1000) ∧ (List.replicate 2500 'a').length = 2500 ∧
    recombine 900 (slidingChunks 1000 900 (List.replicate 2500 'a'))
      = List.replicate 2500 'a' ∧
    slidingChunks 1000 900 (List.replicate 2500 'a')
      = [(List.replicate 2500 'a').take 1000,
         ((List.replicate 2500 'a').drop 900).take 1000,
         (List.replicate 2500 'a').drop 1800] :=
  have h := chunker_windows_reconstruction (List.replicate 2500 'a') 1000 100 (by norm_num)
  ⟨by norm_num, by rw [List.length_replicate], h.2.2.1,
   (h.2.2.2 (by rw [List.length_replicate])).1⟩

/-! ## Claim C8 — chunker precondition enforcement -/

/-- Counterexample to claim C8 as stated: on the non-empty transcript
`"ab"` with `chunk_size = 2 ≤ overlap = 3` the chunker does not reject
with an error — the Python range step is negative, the loop body never
runs, and the call silently returns the degenerate empty chunk list. -/
theorem chunker_degenerate_silent :
    chunkTranscript (some ['a', 'b']) 2 3 = .ok [] ∧ (['a', 'b'] : List Char) ≠ [] := by
  constructor
  · rfl
  · decide

/-- Claim C8 amended: the chunker never loops forever on
`chunk_size ≤ overlap`, but it rejects with an error only in the
equality case (`range` raises on a zero step); for
`chunk_size < overlap` it silently returns an empty chunk list. -/
theorem chunker_precondition_behavior (t : List Char) (c o : Nat) (ht : t ≠ []) :
    (c = o → chunkTranscript (some t) c o = .error ())
    ∧ (c < o → chunkTranscript (some t) c o = .ok []) := by
  constructor
  · intro hco
    subst hco
    simp [chunkTranscript, ht]
  · intro hco
    have hz : ¬((c : Int) - o = 0) := by omega
    have hneg : ((c : Int) - o < 0) := by omega
    simp [chunkTranscript, ht, hz, hneg]

/-- Witness for the amended C8: both degenerate parameter cases on the
one-character transcript `"a"`. -/
theorem chunker_precondition_behavior_witness :
    chunkTranscript (some ['a']) 2 2 = .error ()
    ∧ chunkTranscript (some ['a']) 2 3 = .ok [] :=
  ⟨(chunker_precondition_behavior ['a'] 2 2 (by decide)).1 rfl,
   (chunker_precondition_behavior ['a'] 2 3 (by decide)).2 (by decide)⟩


/-! ## Embedding service and vector sink lemmas -/

theorem generateEmbeddings_map (f : String → V) (b : Nat) (hb : 0 < b)
    (texts : List String) : generateEmbeddings f b texts = texts.map f := by
  have hb' : b ≠ 0 := Nat.pos_iff_ne_zero.mp hb
  by_cases ht : texts.isEmpty
  · rw [List.isEmpty_iff] at ht
    subst ht
    simp [generateEmbeddings]
  · simp only [generateEmbeddings, ht, if_false]
    rw [← slidingChunks_map b b hb' f texts, slidingChunks_flatten b hb']
    simp

theorem buildRecords_length (v : VideoData) (i : Nat) (ps : List (String × V')) :
    (buildRecords v i ps).length = ps.length := by
  induction ps generalizing i with
  | nil => rfl
  | cons p rest ih => simp [buildRecords, ih]

theorem buildRecords_getElem (v : VideoData) (i : Nat) (ps : List (String × V')) (k : Nat) :
    (buildRecords v i ps)[k]? = (ps[k]?).map (fun p =>
      ⟨idString v ++ "_" ++ toString (i + k), idString v, v.title, v.url,
        i + k, p.1, p.2⟩) := by
  induction ps generalizing i k with
  | nil => simp [buildRecords]
  | cons p rest ih =>
    cases k with
    | zero => simp [buildRecords]
    | succ k =>
      simp only [buildRecords, List.getElem?_cons_succ, ih]
      have : i + (k + 1) = i + 1 + k := by omega
      rw [this]

/-! ## Claim C6 — embedding batch service contract -/

/-- Claim C6: `generate_embeddings` returns one vector per input text,
in input order; the empty input yields the empty output; and the batch
size does not affect the returned vectors (batch size 1 agrees with
any batch size `b > 0`, since the per-batch `model.encode` results are
the pure per-text function applied elementwise and concatenated in
order). -/
theorem embed_length_order_batching (f : String → V) (b : Nat)
    (texts : List String) (hb : 0 < b) :
    generateEmbeddings f b texts = texts.map f
    ∧ generateEmbeddings f b ([] : List String) = ([] : List V)
    ∧ (generateEmbeddings f b texts).length = texts.length
    ∧ generateEmbeddings f 1 texts = generateEmbeddings f b texts := by
  refine ⟨generateEmbeddings_map f b hb texts, ?_, ?_, ?_⟩
  · simp [generateEmbeddings]
  · rw [generateEmbeddings_map f b hb texts, List.length_map]
  · rw [generateEmbeddings_map f b hb texts,
      generateEmbeddings_map f 1 (by norm_num) texts]

/-- Witness for C6 on a concrete three-text input with batch size 2
versus 1. -/
theorem embed_length_order_batching_witness :
    (0 < 2) ∧
    generateEmbeddings String.length 2 ["a", "bb", "ccc"]
      = ["a", "bb", "ccc"].map String.length ∧
    generateEmbeddings String.length 1 ["a", "bb", "ccc"]
      = generateEmbeddings String.length 2 ["a", "bb", "ccc"] :=
  have h := embed_length_order_batching String.length 2 ["a", "bb", "ccc"] (by norm_num)
  ⟨by norm_num, h.1, h.2.2.2⟩

/-! ## Claim C5 — vector sink insert contract -/

/-- Claim C5: `insert_transcript_chunks` raises (with the store
untouched) when the chunk and embedding counts differ; under the
length precondition it builds exactly one record per chunk, the k-th
with identifier `video_id + "_" + k` and `chunk_index = k`, and
the single client insert call is all-or-nothing: it either appends
exactly those records or raises with the store untouched. -/
theorem insert_contract (v : VideoData) (chunks : List String)
    (embeddings : List V') (clientOk : Bool) (st : MilvusState V') :
    (chunks.length ≠ embeddings.length →
        insertTranscriptChunks v chunks embeddings clientOk st = (.error (), st))
    ∧ (chunks.length = embeddings.length →
        (buildRecords v 0 (chunks.zip embeddings)).length = chunks.length
        ∧ (∀ k, (buildRecords v 0 (chunks.zip embeddings))[k]? =
            ((chunks.zip embeddings)[k]?).map (fun p =>
              (⟨idString v ++ "_" ++ toString k, idString v, v.title, v.url,
                k, p.1, p.2⟩ : MilvusRecord V')))
        ∧ (insertTranscriptChunks v chunks embeddings clientOk st
              = (.ok (), st ++ buildRecords v 0 (chunks.zip embeddings))
           ∨ insertTranscriptChunks v chunks embeddings clientOk st
              = (.error (), st))) := by
  constructor
  · intro hne
    simp [insertTranscriptChunks, hne]
  · intro heq
    refine ⟨?_, ?_, ?_⟩
    · rw [buildRecords_length, List.length_zip, heq, Nat.min_self]
    · intro k
      simpa using buildRecords_getElem v 0 (chunks.zip embeddings) k
    · by_cases hemp : (buildRecords v 0 (chunks.zip embeddings)).isEmpty
      · left
        have : buildRecords v 0 (chunks.zip embeddings) = [] :=
          List.isEmpty_iff.mp hemp
        simp [insertTranscriptChunks, heq, hemp, this]
      · by_cases hck : clientOk
        · left
          simp [insertTranscriptChunks, heq, hemp, hck]
        · right
          simp [insertTranscriptChunks, heq, hemp, hck]

/-- Witness for C5: a successful two-chunk insert into an empty store,
and a length-mismatch call that raises leaving the store empty. -/
theorem insert_contract_witness :
    (insertTranscriptChunks ⟨some "abc123", "t", "u"⟩ ["x", "y"] [1, 2] true
        ([] : MilvusState Nat)
        = (.ok (), buildRecords ⟨some "abc123", "t", "u"⟩ 0 (["x", "y"].zip [1, 2]))
      ∨ insertTranscriptChunks ⟨some "abc123", "t", "u"⟩ ["x", "y"] [1, 2] true
        ([] : MilvusState Nat)
        = (.error (), []))
    ∧ insertTranscriptChunks ⟨some "abc123", "t", "u"⟩ ["x"] [1, 2] true
        ([] : MilvusState Nat) = (.error (), []) :=
  have h := insert_contract ⟨some "abc123", "t", "u"⟩ ["x", "y"] [1, 2] true
    ([] : MilvusState Nat)
  have h2 := insert_contract ⟨some "abc123", "t", "u"⟩ ["x"] [1, 2] true
    ([] : MilvusState Nat)
  ⟨by simpa using (h.2 rfl).2.2, h2.1 (by decide)⟩


/-! ## Claim C7 — tabular sink append semantics -/

/-- Counterexample to claim C7 as stated: on the empty row list,
`append_transcripts` returns before touching the file system (a fresh
file stays non-existent), while `save_transcripts([], [])` creates a
workbook with an empty `Videos` sheet — so "for every row list" fails
at `rows = []`. -/
theorem append_fresh_empty_rows :
    (appendTranscripts [] none).1 = none
    ∧ (appendTranscripts [] none).1 ≠ some (saveTranscripts [] []) := by
  constructor
  · rfl
  · decide

/-- Claim C7 amended to non-empty row lists: append on a fresh
(non-existent) file behaves identically to `save_transcripts([], rows)`;
when the `Transcripts` sheet exists it is read fully, the new rows are
concatenated after the existing ones (so no prior row is dropped), the
duplicate `video_id` values are reported as warnings without blocking
the merge, and the sheet is rewritten with the concatenation (other
sheets kept); a file without the sheet gets it created from the new
rows. -/
theorem append_merge_semantics (rows : List ChunkRow) (hr : rows ≠ []) :
    (appendTranscripts rows none).1 = some (saveTranscripts [] rows)
    ∧ (∀ f existing, f.transcriptsSheet = some existing →
        appendTranscripts rows (some f)
          = (some { f with transcriptsSheet := some (existing ++ rows) },
             duplicateVideoIds rows existing))
    ∧ (∀ f, f.transcriptsSheet = none →
        appendTranscripts rows (some f)
          = (some { f with transcriptsSheet := some rows }, ([] : List String))) := by
  have hr' : rows.isEmpty = false := by simpa [List.isEmpty_iff] using hr
  refine ⟨?_, ?_, ?_⟩
  · simp [appendTranscripts, hr']
  · intro f existing hf
    simp [appendTranscripts, hr', hf]
  · intro f hf
    simp [appendTranscripts, hr', hf]

/-- Witness for the amended C7: a one-row append on a fresh file, and
a merge into an existing one-row sheet with a duplicate video id that
is warned about but not blocked. -/
theorem append_merge_semantics_witness :
    (appendTranscripts [⟨"v1", "t", "u", 0, "c"⟩] none).1
      = some (saveTranscripts [] [⟨"v1", "t", "u", 0, "c"⟩])
    ∧ appendTranscripts [⟨"v1", "t", "u", 0, "c"⟩]
        (some ⟨some [], some [⟨"v1", "t", "u", 0, "b"⟩]⟩)
      = (some ⟨some [], some [⟨"v1", "t", "u", 0, "b"⟩, ⟨"v1", "t", "u", 0, "c"⟩]⟩,
         ["v1"]) :=
  have h := append_merge_semantics [⟨"v1", "t", "u", 0, "c"⟩] (by decide)
  ⟨h.1, by
    have h2 := h.2.1 ⟨some [], some [⟨"v1", "t", "u", 0, "b"⟩]⟩
      [⟨"v1", "t", "u", 0, "b"⟩] rfl
    simpa using h2⟩


/-! ## Cleaning and resolver lemmas -/

theorem mem_pyStrip (l : List Char) (c : Char) (hc : c ∈ pyStrip l) : c ∈ l := by
  unfold pyStrip at hc
  simp only [List.mem_reverse] at hc
  have h1 := (List.dropWhile_sublist isPySpace).subset hc
  simp only [List.mem_reverse] at h1
  exact (List.dropWhile_sublist isPySpace).subset h1

theorem pyStrip_getLast (l : List Char) (c : Char)
    (h : (pyStrip l).getLast? = some c) : isPySpace c = false := by
  unfold pyStrip at h
  rw [List.getLast?_reverse] at h
  have hd := List.head?_dropWhile_not isPySpace (l.dropWhile isPySpace).reverse
  rw [h] at hd
  exact hd

theorem pyStrip_head (l : List Char) (c : Char)
    (h : (pyStrip l).head? = some c) : isPySpace c = false := by
  obtain ⟨t, ht⟩ :=
    List.dropWhile_suffix (l := (l.dropWhile isPySpace).reverse) isPySpace
  have hm2 : l.dropWhile isPySpace
      = ((l.dropWhile isPySpace).reverse.dropWhile isPySpace).reverse ++ t.reverse := by
    have hr := congrArg List.reverse ht
    simpa using hr.symm
  have hh : (l.dropWhile isPySpace).head? = some c := by
    rw [hm2]
    unfold pyStrip at h
    cases hs : ((l.dropWhile isPySpace).reverse.dropWhile isPySpace).reverse with
    | nil => rw [hs] at h; simp at h
    | cons x xs =>
      rw [hs] at h
      simp only [List.head?_cons, Option.some.injEq] at h
      rw [List.cons_append, List.head?_cons, h]
  have hd := List.head?_dropWhile_not isPySpace l
  rw [hh] at hd
  exact hd

theorem cleanTranscriptText_no_ctrl (d : List Char → List Char) (t : List Char) :
    ∀ c ∈ cleanTranscriptText d t, isAsciiCtrl c = false := by
  intro c hc
  have h1 : c ∈ removeCtrl (collapseWS (normalizeTurkishText d t)) :=
    mem_pyStrip _ c hc
  have h2 := (List.mem_filter.mp h1).2
  simp only [Bool.not_eq_true', isRemovedCtrl, Bool.or_eq_false_iff,
    Bool.and_eq_false_iff, decide_eq_false_iff_not, not_le] at h2
  simp only [isAsciiCtrl, Bool.or_eq_false_iff, decide_eq_false_iff_not, not_le]
  omega

theorem formatTranscript_no_ctrl (d : List Char → List Char) (data : List Fragment) :
    ∀ c ∈ formatTranscript d data, isAsciiCtrl c = false := by
  intro c hc
  unfold formatTranscript at hc
  have hcore := mem_pyStrip _ c hc
  clear hc
  suffices h : ∀ (acc : List Char), (∀ c ∈ acc, isAsciiCtrl c = false) →
      c ∈ data.foldl (formatStep d) acc → isAsciiCtrl c = false by
    exact h [] (by intro x hx; cases hx) hcore
  clear hcore
  induction data with
  | nil =>
    intro acc hacc hc
    exact hacc c hc
  | cons f rest ih =>
    intro acc hacc hc
    simp only [List.foldl_cons] at hc
    apply ih _ _ hc
    intro x hx
    by_cases hne : cleanTranscriptText d (pyStrip f.text) ≠ []
    · simp [formatStep, hne, List.mem_append] at hx
      rcases hx with hx | hx | hx
      · exact hacc x hx
      · exact cleanTranscriptText_no_ctrl d (pyStrip f.text) x hx
      · subst hx; rfl
    · simp [formatStep, hne] at hx
      exact hacc x hx

theorem tryTranslated_shape (d : List Char → List Char)
    (tracks : Option (List (Option (List Fragment)))) :
    (tryTranslated d tracks).1 = none
    ∨ ∃ data, (tryTranslated d tracks).1 = some (formatTranscript d data) := by
  match tracks with
  | none => exact Or.inl rfl
  | some ts =>
    induction ts with
    | nil => exact Or.inl rfl
    | cons o rest ih =>
      match o with
      | none =>
        simpa [tryTranslated, tryTranslated.go] using
          (by simpa [tryTranslated] using ih)
      | some dta => exact Or.inr ⟨dta, rfl⟩

theorem tryAuto_shape (d : List Char → List Char) (auto : Option (List Fragment)) :
    (tryAuto d auto).1 = none
    ∨ ∃ data, (tryAuto d auto).1 = some (formatTranscript d data) := by
  match auto with
  | none => exact Or.inl rfl
  | some dta => exact Or.inr ⟨dta, rfl⟩

theorem audioStep_shape (d : List Char → List Char) (a : AudioOutcome) :
    (audioStep d a).1 = none
    ∨ ∃ t, (audioStep d a).1 = some (pyStrip (cleanTranscriptText d t)) := by
  match a with
  | .noAudio => exact Or.inl rfl
  | .whisperFail => exact Or.inl rfl
  | .whisperText t =>
    by_cases ht : t = []
    · subst ht; exact Or.inl rfl
    · right
      exact ⟨t, by simp [audioStep, ht]⟩

theorem resolve_result_shape (d : List Char → List Char) (env : ResolverEnv) :
    (resolve d env).result = none
    ∨ (∃ data, (resolve d env).result = some (formatTranscript d data))
    ∨ (∃ t, (resolve d env).result = some (pyStrip (cleanTranscriptText d t))) := by
  unfold resolve
  match hc : env.cache with
  | some dta => exact Or.inr (Or.inl ⟨dta, rfl⟩)
  | none =>
    match hs : env.standard with
    | .ok dta => exact Or.inr (Or.inl ⟨dta, rfl⟩)
    | .disabled =>
      by_cases htr : truthy (tryTranslated d env.tracks).1
      · simp only [htr, if_true]
        rcases tryTranslated_shape d env.tracks with h | ⟨data, h⟩
        · rw [h] at htr; cases htr
        · exact Or.inr (Or.inl ⟨data, h⟩)
      · simp only [htr, if_false, Bool.false_eq_true]
        by_cases hau : truthy (tryAuto d env.auto).1
        · simp only [hau, if_true]
          rcases tryAuto_shape d env.auto with h | ⟨data, h⟩
          · rw [h] at hau; cases hau
          · exact Or.inr (Or.inl ⟨data, h⟩)
        · simp only [hau, if_false, Bool.false_eq_true]
          rcases audioStep_shape d env.audio with h | ⟨t, h⟩
          · exact Or.inl h
          · exact Or.inr (Or.inr ⟨t, h⟩)
    | .notFound =>
      by_cases hau : truthy (tryAuto d env.auto).1
      · simp only [hau, if_true]
        rcases tryAuto_shape d env.auto with h | ⟨data, h⟩
        · rw [h] at hau; cases hau
        · exact Or.inr (Or.inl ⟨data, h⟩)
      · simp only [hau, if_false, Bool.false_eq_true]
        rcases audioStep_shape d env.audio with h | ⟨t, h⟩
        · exact Or.inl h
        · exact Or.inr (Or.inr ⟨t, h⟩)
    | .err =>
      rcases audioStep_shape d env.audio with h | ⟨t, h⟩
      · exact Or.inl h
      · exact Or.inr (Or.inr ⟨t, h⟩)

/-! ## Claim C10 — output normalization -/

/-- Counterexample to claim C10 as stated: a cached fragment
`"a \x00 b"` resolves to `"a  b"`, which contains a run of two
consecutive spaces — the cleaning routine collapses whitespace before
removing control characters, so deleting the NUL leaves the two
adjacent spaces uncollapsed. -/
theorem resolver_double_space :
    (resolve id ⟨some [⟨['a', ' ', '\x00', ' ', 'b'], 0, 0⟩],
        .err, none, none, .noAudio⟩).result
      = some ['a', ' ', ' ', 'b']
    ∧ isPySpace ' ' = true := by
  constructor
  · rfl
  · rfl

/-- Claim C10 amended: every transcript string returned by the
resolver is cleaned per fragment, so it contains no ASCII control
characters and no leading or trailing whitespace; runs of consecutive
whitespace, however, can survive when a control character was removed
between two spaces, because the collapse happens before the control
range is removed. -/
theorem resolver_output_normalized (d : List Char → List Char) (env : ResolverEnv)
    (s : List Char) (hs : (resolve d env).result = some s) :
    s.all (fun c => !isAsciiCtrl c) = true
    ∧ (∀ c, s.head? = some c → isPySpace c = false)
    ∧ (∀ c, s.getLast? = some c → isPySpace c = false) := by
  rcases resolve_result_shape d env with h | ⟨data, h⟩ | ⟨t, h⟩
  · rw [h] at hs; cases hs
  · rw [h] at hs
    injection hs with hs
    subst hs
    refine ⟨?_, ?_, ?_⟩
    · rw [List.all_eq_true]
      intro c hc
      simpa using formatTranscript_no_ctrl d data c hc
    · intro c hc
      unfold formatTranscript at hc
      exact pyStrip_head _ c hc
    · intro c hc
      unfold formatTranscript at hc
      exact pyStrip_getLast _ c hc
  · rw [h] at hs
    injection hs with hs
    subst hs
    refine ⟨?_, ?_, ?_⟩
    · rw [List.all_eq_true]
      intro c hc
      have := cleanTranscriptText_no_ctrl d t c (mem_pyStrip _ c hc)
      simpa using this
    · intro c hc
      exact pyStrip_head _ c hc
    · intro c hc
      exact pyStrip_getLast _ c hc

/-- Witness for the amended C10: a cached fragment with surrounding
whitespace resolves to a stripped, control-free string. -/
theorem resolver_output_normalized_witness :
    ((resolve id ⟨some [⟨[' ', 'h', 'i', ' '], 0, 0⟩],
        .err, none, none, .noAudio⟩).result = some ['h', 'i'])
    ∧ (['h', 'i'] : List Char).all (fun c => !isAsciiCtrl c) = true :=
  ⟨rfl, (resolver_output_normalized id
      ⟨some [⟨[' ', 'h', 'i', ' '], 0, 0⟩], .err, none, none, .noAudio⟩
      ['h', 'i'] rfl).1⟩


/-! ## Claim C2 — resolver result contract -/

theorem truthy_iff (t : Option (List Char)) :
    truthy t = true ↔ ∃ s, t = some s ∧ s ≠ [] := by
  cases t with
  | none => simp [truthy]
  | some s => cases s <;> simp [truthy]

/-- Counterexample to claim C2 as stated: the cached strategy succeeds
(a cache file exists and is returned), yet the resolved string is
empty — a cache payload whose only fragment is a single space formats
to the empty string, so "non-empty whenever any strategy succeeds"
fails. -/
theorem resolver_empty_success :
    (resolve id ⟨some [⟨[' '], 0, 0⟩], .err, none, none, .noAudio⟩).method
      = some .cached
    ∧ (resolve id ⟨some [⟨[' '], 0, 0⟩], .err, none, none, .noAudio⟩).result
      = some [] := ⟨rfl, rfl⟩

/-- Claim C2 amended: `get_transcript` returns null only when the
audio-transcription fallback was reached and failed (so every strategy
attempted on the way had failed), and whenever the translated or
auto-caption strategy supplies the result that result is non-empty;
cache hits and standard-caption successes, however, can return the
empty string when every fragment is blank. -/
theorem resolver_null_and_nonempty (d : List Char → List Char) (env : ResolverEnv) :
    ((resolve d env).result = none →
        Strategy.audio ∈ (resolve d env).trace
        ∧ (audioStep d env.audio).1 = none
        ∧ (resolve d env).method = none)
    ∧ ((resolve d env).method = some .translated
        ∨ (resolve d env).method = some .auto →
        ∃ s, (resolve d env).result = some s ∧ s ≠ []) := by
  obtain ⟨cache, standard, tracks, auto, audio⟩ := env
  cases cache with
  | some dta =>
    constructor
    · intro h
      simp [resolve] at h
    · intro h
      simp [resolve] at h
  | none =>
    cases standard with
    | ok dta =>
      constructor
      · intro h
        simp [resolve] at h
      · intro h
        simp [resolve] at h
    | disabled =>
      by_cases htr : truthy (tryTranslated d tracks).1
      · constructor
        · intro h
          simp only [resolve, htr, if_true] at h
          obtain ⟨s, hs, hne⟩ := (truthy_iff _).mp htr
          rw [hs] at h
          cases h
        · intro _
          obtain ⟨s, hs, hne⟩ := (truthy_iff _).mp htr
          refine ⟨s, ?_, hne⟩
          simp only [resolve, htr, if_true]
          exact hs
      · by_cases hau : truthy (tryAuto d auto).1
        · constructor
          · intro h
            simp only [resolve, htr, hau, if_true, Bool.false_eq_true, if_false] at h
            obtain ⟨s, hs, hne⟩ := (truthy_iff _).mp hau
            rw [hs] at h
            cases h
          · intro _
            obtain ⟨s, hs, hne⟩ := (truthy_iff _).mp hau
            refine ⟨s, ?_, hne⟩
            simp only [resolve, htr, hau, if_true, Bool.false_eq_true, if_false]
            exact hs
        · constructor
          · intro h
            simp [resolve, htr, hau] at h ⊢
            try simp [h]
          · intro h
            simp [resolve, htr, hau] at h
    | notFound =>
      by_cases hau : truthy (tryAuto d auto).1
      · constructor
        · intro h
          simp only [resolve, hau, if_true] at h
          obtain ⟨s, hs, hne⟩ := (truthy_iff _).mp hau
          rw [hs] at h
          cases h
        · intro _
          obtain ⟨s, hs, hne⟩ := (truthy_iff _).mp hau
          refine ⟨s, ?_, hne⟩
          simp only [resolve, hau, if_true]
          exact hs
      · constructor
        · intro h
          simp [resolve, hau] at h ⊢
          try simp [h]
        · intro h
          simp [resolve, hau] at h
    | err =>
      constructor
      · intro h
        simp [resolve] at h ⊢
        try simp [h]
      · intro h
        simp [resolve] at h

end Harvester
namespace Harvester

/-- Witness for the amended C2: an environment in which every strategy
fails, showing the audio strategy was attempted and failed. -/
theorem resolver_null_and_nonempty_witness :
    Strategy.audio ∈
      (resolve id ⟨none, .disabled, none, none, .noAudio⟩).trace
    ∧ (audioStep id AudioOutcome.noAudio).1 = none :=
  have h := (resolver_null_and_nonempty id
    ⟨none, .disabled, none, none, .noAudio⟩).1 rfl
  ⟨h.1, h.2.1⟩

/-! ## Claim C3 — fallback ordering -/

/-- Claim C3: when the cache misses and the standard-caption call
raises the captions-disabled error, the attempted-strategy trace is
exactly cached, standard, translated, then auto only if translated
produced no usable text, then audio only if auto also produced none —
translated strictly before auto, audio only after both failed, and no
later strategy once an earlier one succeeds. -/
theorem fallback_ordering (d : List Char → List Char) (env : ResolverEnv)
    (h1 : env.cache = none) (h2 : env.standard = .disabled) :
    (resolve d env).trace
      = [.cached, .standard, .translated]
        ++ (if truthy (tryTranslated d env.tracks).1 then []
            else [Strategy.auto]
              ++ (if truthy (tryAuto d env.auto).1 then []
                  else [Strategy.audio])) := by
  obtain ⟨cache, standard, tracks, auto, audio⟩ := env
  simp only at h1 h2
  subst h1
  subst h2
  by_cases htr : truthy (tryTranslated d tracks).1
  · simp [resolve, htr]
  · by_cases hau : truthy (tryAuto d auto).1
    · simp [resolve, htr, hau]
    · simp [resolve, htr, hau]

/-- Witness for C3: with all strategies failing, the trace is the full
five-state cascade in order. -/
theorem fallback_ordering_witness :
    (resolve id ⟨none, .disabled, none, none, .noAudio⟩).trace
      = [.cached, .standard, .translated, .auto, .audio] := by
  have h := fallback_ordering id ⟨none, .disabled, none, none, .noAudio⟩ rfl rfl
  simpa using h

/-! ## Claim C9 — provenance tagging of audio transcriptions -/

/-- Counterexample to claim C9 as stated: a successful audio
transcription and a successful standard-caption fetch of the same text
write byte-identical cache payloads — the cache record is a bare
fragment list with no `resolution_method` field, so the winning
strategy is not auditable from the cache file. -/
theorem audio_cache_untagged :
    (resolve id ⟨none, .err, none, none, .whisperText ['h', 'i']⟩).method
      = some .audio
    ∧ (resolve id ⟨none, .ok [⟨['h', 'i'], 0, 0⟩], none, none, .noAudio⟩).method
      = some .standard
    ∧ (resolve id ⟨none, .err, none, none, .whisperText ['h', 'i']⟩).writes
      = (resolve id ⟨none, .ok [⟨['h', 'i'], 0, 0⟩], none, none, .noAudio⟩).writes :=
  ⟨rfl, rfl, rfl⟩

/-- Claim C9 amended: when audio transcription succeeds, the cached
record has the same shape as caption-based results — a fragment list,
here a single fragment holding the cleaned text with start 0.0 and
duration 0.0 — but carries no `resolution_method` field; the method is
visible only in the in-memory outcome, not in the cache file. -/
theorem audio_cache_record_shape (d : List Char → List Char) (env : ResolverEnv)
    (t : List Char) (ht : env.audio = .whisperText t) (hne : t ≠ [])
    (hreach : Strategy.audio ∈ (resolve d env).trace) :
    (resolve d env).writes.getLast? = some [⟨cleanTranscriptText d t, 0, 0⟩]
    ∧ (resolve d env).result = some (pyStrip (cleanTranscriptText d t))
    ∧ (resolve d env).method = some .audio := by
  obtain ⟨cache, standard, tracks, auto, audio⟩ := env
  simp only at ht
  subst ht
  have hstep : audioStep d (.whisperText t)
      = (some (pyStrip (cleanTranscriptText d t)),
         [[⟨cleanTranscriptText d t, 0, 0⟩]]) := by
    simp [audioStep, hne]
  cases cache with
  | some dta => simp [resolve] at hreach
  | none =>
    cases standard with
    | ok dta => simp [resolve] at hreach
    | disabled =>
      by_cases htr : truthy (tryTranslated d tracks).1
      · simp [resolve, htr] at hreach
      · by_cases hau : truthy (tryAuto d auto).1
        · simp [resolve, htr, hau] at hreach
        · simp only [resolve, htr, hau, Bool.false_eq_true, if_false, hstep]
          refine ⟨?_, trivial, by simp⟩
          exact List.getLast?_concat _
    | notFound =>
      by_cases hau : truthy (tryAuto d auto).1
      · simp [resolve, hau] at hreach
      · simp only [resolve, hau, Bool.false_eq_true, if_false, hstep]
        refine ⟨?_, trivial, by simp⟩
        exact List.getLast?_concat _
    | err =>
      simp only [resolve, hstep]
      refine ⟨?_, trivial, by simp⟩
      rfl

/-- Witness for the amended C9: a concrete audio transcription whose
final cache write is the single cleaned fragment. -/
theorem audio_cache_record_shape_witness :
    (resolve id ⟨none, .err, none, none,
        .whisperText ['h', 'i']⟩).writes.getLast?
      = some [⟨cleanTranscriptText id ['h', 'i'], 0, 0⟩]
    ∧ (resolve id ⟨none, .err, none, none,
        .whisperText ['h', 'i']⟩).method = some .audio :=
  have h := audio_cache_record_shape id
    ⟨none, .err, none, none, .whisperText ['h', 'i']⟩ ['h', 'i'] rfl
    (by decide) (by decide)
  ⟨h.1, h.2.2⟩


/-! ## Orchestrator lemmas -/

theorem processVideo_state (env : HarvestEnv V) (qOk : Bool) (v : VideoData)
    (st : MilvusState V) :
    (processVideo env qOk v st).2.1 =
      if pyStrFalsy v.id then st
      else if vectorCheckActive env && videoExists qOk st (v.id.getD "") then st
      else if pvInserts env (v.id.getD "") then
        st ++ pvRecords env v (v.id.getD "")
      else st := by
  by_cases hfal : pyStrFalsy v.id
  · simp [processVideo, hfal]
  · by_cases hchk : vectorCheckActive env && videoExists qOk st (v.id.getD "")
    · simp [processVideo, hfal, hchk]
    · cases hc : env.chunksOf (v.id.getD "") with
      | error e =>
        simp [processVideo, hfal, hchk, hc, pvInserts]
      | ok chunks =>
        by_cases hemp : chunks.isEmpty
        · simp [processVideo, hfal, hchk, hc, hemp, pvInserts]
        · by_cases hexl : excelActive env && !env.excelOk
          · simp [processVideo, hfal, hchk, hc, hemp, hexl, pvInserts]
          · by_cases hvi : vectorInsertActive env
            · by_cases hek : env.embedOk
              · have hrec : buildRecords ⟨some (v.id.getD ""), v.title, v.url⟩ 0
                    (chunks.zip (chunks.map env.embed)) ≠ [] := by
                  intro hnil
                  have := congrArg List.length hnil
                  rw [buildRecords_length, List.length_zip, List.length_map,
                    Nat.min_self] at this
                  simp only [List.length_nil] at this
                  rw [List.isEmpty_iff_length_eq_zero] at hemp
                  exact hemp this
                have hne : chunks ≠ [] := by
                  simpa [List.isEmpty_iff] using hemp
                by_cases hck : env.clientOk
                · simp [processVideo, hfal, hchk, hc, hemp, hexl, hvi, hek, hck,
                    insertTranscriptChunks, hrec, hne, pvInserts, pvRecords,
                    pvChunks, List.isEmpty_iff]
                · simp [processVideo, hfal, hchk, hc, hemp, hexl, hvi, hek, hck,
                    insertTranscriptChunks, hrec, hne, pvInserts, pvRecords,
                    pvChunks, List.isEmpty_iff]
              · simp [processVideo, hfal, hchk, hc, hemp, hexl, hvi, hek, pvInserts]
            · simp [processVideo, hfal, hchk, hc, hemp, hexl, hvi, pvInserts]


theorem buildRecords_video_id (v : VideoData) (i : Nat) (ps : List (String × V')) :
    ∀ r ∈ buildRecords v i ps, r.video_id = idString v := by
  induction ps generalizing i with
  | nil => intro r hr; cases hr
  | cons p rest ih =>
    intro r hr
    rcases List.mem_cons.mp hr with rfl | hr
    · rfl
    · exact ih (i + 1) r hr

theorem pvRecords_video_id (env : HarvestEnv V) (v : VideoData) (vid : String) :
    ∀ r ∈ pvRecords env v vid, r.video_id = vid := by
  intro r hr
  exact buildRecords_video_id ⟨some vid, v.title, v.url⟩ 0 _ r hr

theorem pvRecords_ne_nil (env : HarvestEnv V) (v : VideoData) (vid : String)
    (h : pvInserts env vid = true) : pvRecords env v vid ≠ [] := by
  intro hnil
  have hlen := congrArg List.length hnil
  rw [pvRecords, buildRecords_length, List.length_zip, List.length_map,
    Nat.min_self, List.length_nil] at hlen
  simp only [pvInserts, Bool.and_eq_true] at h
  obtain ⟨⟨⟨⟨hch, _⟩, _⟩, _⟩, _⟩ := h
  cases hc : env.chunksOf vid with
  | error e => rw [hc] at hch; cases hch
  | ok chunks =>
    rw [hc] at hch
    rw [pvChunks, hc] at hlen
    rw [← List.isEmpty_iff_length_eq_zero] at hlen
    simp_all

theorem storeHas_append (st recs : MilvusState V) (vid : String) :
    storeHas (st ++ recs) vid = (storeHas st vid || storeHas recs vid) :=
  List.any_append

theorem videoExists_storeHas (qOk : Bool) (st : MilvusState V) (vid : String)
    (h : videoExists qOk st vid = true) : storeHas st vid = true := by
  unfold videoExists at h
  by_cases hq : qOk
  · rwa [if_pos hq] at h
  · rw [if_neg hq] at h; cases h

theorem processVideo_mono (env : HarvestEnv V) (qOk : Bool) (v : VideoData)
    (st : MilvusState V) (vid : String) (hex : storeHas st vid = true) :
    storeHas (processVideo env qOk v st).2.1 vid = true := by
  rw [processVideo_state]
  by_cases h0 : pyStrFalsy v.id
  · simpa [h0] using hex
  · by_cases h1 : vectorCheckActive env && videoExists qOk st (v.id.getD "")
    · simpa [h0, h1] using hex
    · by_cases h2 : pvInserts env (v.id.getD "")
      · simp only [h0, h1, h2, if_false, if_true, Bool.false_eq_true]
        rw [storeHas_append, hex, Bool.true_or]
      · simpa [h0, h1, h2] using hex

theorem runHarvest_mono (env : HarvestEnv V) (jobs : List (Bool × VideoData))
    (st : MilvusState V) (vid : String) (hex : storeHas st vid = true) :
    storeHas (runHarvest env jobs st) vid = true := by
  induction jobs generalizing st with
  | nil => exact hex
  | cons j rest ih =>
    exact ih _ (processVideo_mono env j.1 j.2 st vid hex)

theorem processVideo_inserted_exists (env : HarvestEnv V) (qOk : Bool)
    (v : VideoData) (st : MilvusState V) (vid : String) (hvid : v.id = some vid)
    (hvne : vid ≠ "") (hpi : pvInserts env vid = true) :
    storeHas (processVideo env qOk v st).2.1 vid = true := by
  rw [processVideo_state]
  have hfal : pyStrFalsy v.id = false := by
    simp [pyStrFalsy, hvid, hvne]
  have hgd : v.id.getD "" = vid := by rw [hvid]; rfl
  rw [hfal, if_neg (by simp), hgd]
  by_cases h1 : vectorCheckActive env && videoExists qOk st vid
  · rw [if_pos h1]
    exact videoExists_storeHas qOk st vid (Bool.and_eq_true _ _ |>.mp h1).2
  · rw [if_neg h1, if_pos hpi]
    rw [storeHas_append, Bool.or_eq_true]
    right
    rw [storeHas, List.any_eq_true]
    obtain ⟨r, hr⟩ := List.exists_mem_of_ne_nil _ (pvRecords_ne_nil env v vid hpi)
    exact ⟨r, hr, by rw [pvRecords_video_id env v vid r hr]; exact beq_self_eq_true vid⟩


theorem runHarvest_cons (env : HarvestEnv V) (j : Bool × VideoData)
    (rest : List (Bool × VideoData)) (st : MilvusState V) :
    runHarvest env (j :: rest) st
      = runHarvest env rest (processVideo env j.1 j.2 st).2.1 := rfl

theorem run_settles (env : HarvestEnv V) (jobs : List (Bool × VideoData))
    (st : MilvusState V) :
    ∀ j ∈ jobs, ∀ vid, j.2.id = some vid → vid ≠ "" →
      storeHas (runHarvest env jobs st) vid = true
      ∨ pvInserts env vid = false := by
  induction jobs generalizing st with
  | nil => intro j hmem; cases hmem
  | cons j0 rest ih =>
    intro j hmem vid hvid hvne
    rcases List.mem_cons.mp hmem with rfl | hmem
    · by_cases hpi : pvInserts env vid
      · left
        rw [runHarvest_cons]
        exact runHarvest_mono env rest _ vid
          (processVideo_inserted_exists env j.1 j.2 st vid hvid hvne hpi)
      · right
        simpa using hpi
    · rw [runHarvest_cons]
      exact ih _ j hmem vid hvid hvne

theorem processVideo_fixed (env : HarvestEnv V) (hv : vectorCheckActive env = true)
    (v : VideoData) (st : MilvusState V)
    (H : ∀ vid, v.id = some vid → vid ≠ "" →
      storeHas st vid = true ∨ pvInserts env vid = false) :
    (processVideo env true v st).2.1 = st := by
  rw [processVideo_state]
  by_cases hfal : pyStrFalsy v.id
  · simp [hfal]
  · have hvidne : ∃ vid, v.id = some vid ∧ vid ≠ "" := by
      cases hvid : v.id with
      | none => rw [hvid] at hfal; cases hfal rfl
      | some s =>
        refine ⟨s, rfl, ?_⟩
        intro hs
        rw [hvid, hs] at hfal
        exact hfal rfl
    obtain ⟨vid, hvid, hvne⟩ := hvidne
    have hgd : v.id.getD "" = vid := by rw [hvid]; rfl
    rw [if_neg hfal, hgd]
    rcases H vid hvid hvne with hex | hpi
    · rw [if_pos]
      rw [hv, videoExists, if_pos rfl, hex]
      rfl
    · by_cases hchk : vectorCheckActive env && videoExists true st vid
      · rw [if_pos hchk]
      · rw [if_neg hchk, if_neg (by simp [hpi])]

theorem runHarvest_fixed (env : HarvestEnv V) (videos : List VideoData)
    (T : MilvusState V) (H : ∀ v ∈ videos, (processVideo env true v T).2.1 = T) :
    runHarvest env (videos.map (fun v => (true, v))) T = T := by
  induction videos with
  | nil => rfl
  | cons v rest ih =>
    rw [List.map_cons, runHarvest_cons]
    simp only
    rw [H v (List.mem_cons_self v rest)]
    exact ih (fun w hw => H w (List.mem_cons_of_mem v hw))

/-! ## Claim C1 — idempotent re-runs -/

/-- Counterexample to claim C1 as stated: after a first run inserts a
source's two records, a second `process_video` call whose existence
query raises gets `False` from `video_exists` (its except branch
swallows the error) even though records with that source id are
present — the call proceeds, returns `True`, and the store ends up
with the records twice.  "Returns without inserting whenever any
record with that source_id is already present" and "inserts chunks for
each source id at most once" both fail on the query-error path. -/
theorem orchestrator_requery_reinserts :
    storeHas (runHarvest requeryEnv [(true, requeryVideo)] []) "v1" = true
    ∧ (processVideo requeryEnv false requeryVideo
        (runHarvest requeryEnv [(true, requeryVideo)] [])).1 = true
    ∧ (runHarvest requeryEnv [(false, requeryVideo)]
          (runHarvest requeryEnv [(true, requeryVideo)] [])).length = 4
    ∧ (runHarvest requeryEnv [(true, requeryVideo)] []).length = 2 :=
  ⟨rfl, rfl, rfl, rfl⟩

/-- Claim C1 amended: with the vector sink active, whenever the
existence query itself succeeds, a `process_video` call on a present
source id returns `False` with the store untouched and only the
existence check in its trace; the existence check is always the first
external call for any video with a non-falsy id; a falsy id (missing
or empty string) returns `False` before any call; and a second run of
the orchestrator over the same source list in which every existence
query succeeds leaves the vector store exactly as after the first run
— so re-runs insert each source id at most once provided the
existence queries do not raise. -/
theorem orchestrator_idempotent (env : HarvestEnv V)
    (hv : vectorCheckActive env = true) :
    (∀ (v : VideoData) (vid : String) (st : MilvusState V),
        v.id = some vid → vid ≠ "" → storeHas st vid = true →
        processVideo env true v st = (false, st, [Event.existsCheck vid]))
    ∧ (∀ (v : VideoData) (qOk : Bool) (vid : String) (st : MilvusState V),
        v.id = some vid → vid ≠ "" →
        ((processVideo env qOk v st).2.2).head? = some (Event.existsCheck vid))
    ∧ (∀ (v : VideoData) (qOk : Bool) (st : MilvusState V),
        pyStrFalsy v.id = true →
        processVideo env qOk v st = (false, st, []))
    ∧ (∀ (jobs : List (Bool × VideoData)) (st : MilvusState V),
        runHarvest env ((jobs.map Prod.snd).map (fun v => (true, v)))
            (runHarvest env jobs st)
          = runHarvest env jobs st) := by
  refine ⟨?_, ?_, ?_, ?_⟩
  · intro v vid st hvid hvne hex
    simp [processVideo, pyStrFalsy, hvid, hvne, hv, videoExists, hex]
  · intro v qOk vid st hvid hvne
    have hfal : pyStrFalsy v.id = false := by
      simp [pyStrFalsy, hvid, hvne]
    by_cases hex : videoExists qOk st vid
    · simp [processVideo, pyStrFalsy, hvne, hfal, hvid, hv, hex]
    · cases hc : env.chunksOf vid with
      | error e => simp [processVideo, pyStrFalsy, hvne, hfal, hvid, hv, hex, hc]
      | ok chunks =>
        by_cases hemp : chunks.isEmpty
        · simp [processVideo, pyStrFalsy, hvne, hfal, hvid, hv, hex, hc, hemp]
        · by_cases hexl : excelActive env && !env.excelOk
          · simp [processVideo, pyStrFalsy, hvne, hfal, hvid, hv, hex, hc, hemp, hexl]
          · by_cases hvi : vectorInsertActive env
            · by_cases hemb : (if env.embedOk then chunks.map env.embed else []).isEmpty
              · simp [processVideo, pyStrFalsy, hvne, hfal, hvid, hv, hex, hc, hemp, hexl, hvi, hemb]
              · cases hins : insertTranscriptChunks ⟨some vid, v.title, v.url⟩
                  chunks (if env.embedOk then chunks.map env.embed else [])
                  env.clientOk st with
                | mk res st' =>
                  cases res with
                  | ok u =>
                    simp [processVideo, pyStrFalsy, hvne, hfal, hvid, hv, hex, hc, hemp, hexl,
                      hvi, hemb, hins]
                  | error e =>
                    simp [processVideo, pyStrFalsy, hvne, hfal, hvid, hv, hex, hc, hemp, hexl,
                      hvi, hemb, hins]
            · simp [processVideo, pyStrFalsy, hvne, hfal, hvid, hv, hex, hc, hemp, hexl, hvi]
  · intro v qOk st hfal
    simp [processVideo, hfal]
  · intro jobs st
    apply runHarvest_fixed
    intro v hmem
    apply processVideo_fixed env hv
    intro vid hvid hvne
    obtain ⟨j, hj, hj2⟩ := List.mem_map.mp hmem
    exact run_settles env jobs st j hj vid (by rw [hj2]; exact hvid) hvne

/-- Witness for the amended C1: a concrete one-video run with both
sinks active and reliable queries; re-running leaves the store
unchanged. -/
theorem orchestrator_idempotent_witness :
    vectorCheckActive requeryEnv = true
    ∧ runHarvest requeryEnv [(true, requeryVideo)]
        (runHarvest requeryEnv [(true, requeryVideo)] [])
      = runHarvest requeryEnv [(true, requeryVideo)] [] :=
  ⟨rfl, (orchestrator_idempotent requeryEnv (by rfl)).2.2.2
    [(true, requeryVideo)] []⟩

end Harvester
